import Mathlib

/-!
Verification of the snapshot-diff core of `file_checker.py`, a file-integrity
monitor.  The Python module is shallowly embedded: the filesystem seen by one
`os.walk` pass is a list of entries (directory segments, filename, optional
digest — `none` models a per-file read/hash failure), the two state files are
an abstract `Disk`, and JSON values are the inductive `Json` (serialization is
modelled at the parsed-value level, i.e. `json.dump`/`json.load` compose to
the identity on JSON values).  Python operations that can raise (`in`,
subscripting and `.keys()` on the value returned by `json.load`) are embedded
in `Except PyExc`; every `try/except` of the source becomes a total branch.
-/

/-- Character-list version of string containment: `listPre a b` is true iff
`a` is an initial segment of `b`. -/
def listPre : List Char → List Char → Bool
  | [], _ => true
  | _ :: _, [] => false
  | a :: as, b :: bs => a == b && listPre as bs

/-- True iff `n` occurs as a contiguous sublist of the second argument. -/
def listSub (n : List Char) : List Char → Bool
  | [] => listPre n []
  | b :: bs => listPre n (b :: bs) || listSub n bs

/-- Python `needle in haystack` on strings: substring containment. -/
def strIn (needle haystack : String) : Bool := listSub needle.data haystack.data

/-- Python `s.endswith(suf)`. -/
def strEnds (s suf : String) : Bool := listPre suf.data.reverse s.data.reverse

/-- JSON values as produced by `json.load`.  An `obj` models a Python dict
(unique keys in insertion order once it comes from the parser). -/
inductive Json where
  | null
  | bool (b : Bool)
  | num (n : Int)
  | str (s : String)
  | arr (xs : List Json)
  | obj (kvs : List (String × Json))

/-- Python `==` between a JSON value and a string: true only for an equal
string (Python cross-type equality is `False`). -/
def Json.eqStr : Json → String → Bool
  | .str t, s => t == s
  | _, _ => false

/-- Exceptions the embedded fragment can raise. -/
inductive PyExc where
  | typeError
  | attributeError
  | keyError
deriving DecidableEq

/-- Association-list lookup with string keys (first match; a parsed Python
dict has unique keys, so this is dict lookup). -/
def alookup {α : Type} : List (String × α) → String → Option α
  | [], _ => none
  | kv :: tl, p => if kv.1 = p then some kv.2 else alookup tl p

/-- Keys of an association list, in order. -/
def akeys {α : Type} (l : List (String × α)) : List String := l.map Prod.fst

/-- Python `filepath in hashes` where `hashes` is whatever `json.load`
returned: dict membership, list membership, substring test on a string,
`TypeError` otherwise (int, float, bool, None). -/
def pyContains (s : String) : Json → Except PyExc Bool
  | .obj kvs => .ok (alookup kvs s).isSome
  | .arr xs => .ok (xs.any (fun x => x.eqStr s))
  | .str t => .ok (strIn s t)
  | _ => .error .typeError

/-- Python `hashes[filepath]`: dict subscripting succeeds (`KeyError` when
absent); subscripting a list or a string with a string key, or any other
value, raises `TypeError`. -/
def pyGetItem (j : Json) (s : String) : Except PyExc Json :=
  match j with
  | .obj kvs =>
    match alookup kvs s with
    | some v => .ok v
    | none => .error .keyError
  | _ => .error .typeError

/-- Python `hashes.keys()`: only a dict has `.keys()`; anything else raises
`AttributeError`. -/
def pyKeys : Json → Except PyExc (List String)
  | .obj kvs => .ok (akeys kvs)
  | _ => .error .attributeError

/-- Python `hashes[filepath] != file_hash` where the right side is a string. -/
def pyNeVal (v : Json) (h : String) : Bool := !(v.eqStr h)

/-- EXCLUDE_EXTENSIONS of file_checker.py. -/
def EXCLUDE_EXTENSIONS : List String := [".tmp", ".log"]

/-- EXCLUDE_DIRECTORIES of file_checker.py. -/
def EXCLUDE_DIRECTORIES : List String := ["__pycache__", ".git"]

/-- FOLDER_TO_MONITOR of file_checker.py. -/
def FOLDER_TO_MONITOR : String := "test_folder"

/-- One file seen during the walk: the directory path as segments (starting
with the watched root's name, as `os.walk` roots do), the filename, and the
digest `calculate_file_hash` would return (`none` models the caught per-file
read failure). -/
structure Entry where
  dirSegs : List String
  fname : String
  hash : Option String

/-- Join path segments with the POSIX separator, as `os.walk`/`os.path.join`
produce the walk root and the file path. -/
def joinPath (segs : List String) : String := String.intercalate "/" segs

/-- Full path of an entry, `os.path.join(root, file)`. -/
def fullPath (e : Entry) : String := joinPath (e.dirSegs ++ [e.fname])

/-- Line 122: `any(excluded in root for excluded in EXCLUDE_DIRECTORIES)` —
substring test of each fragment against the joined directory path. -/
def dirExcluded (dirs : List String) (segs : List String) : Bool :=
  dirs.any (fun d => strIn d (joinPath segs))

/-- Line 126: `any(file.endswith(ext) for ext in EXCLUDE_EXTENSIONS)`. -/
def extExcluded (exts : List String) (fname : String) : Bool :=
  exts.any (fun ext => strEnds fname ext)

/-- Truthiness of `calculate_file_hash`'s result (line 132 `if file_hash:`):
`None` and the empty string are falsy. -/
def hashOk : Option String → Bool
  | some h => !h.isEmpty
  | none => false

/-- Python dict assignment `current_files[filepath] = file_hash`: update in
place when the key exists, else append. -/
def dictInsert (l : List (String × String)) (k v : String) :
    List (String × String) :=
  if (alookup l k).isSome then
    l.map (fun kv => if kv.1 = k then (k, v) else kv)
  else l ++ [(k, v)]

/-- Kinds of change reported to `send_email_alert`. -/
inductive ChangeKind where
  | modified
  | newFile
  | deleted
deriving DecidableEq

/-- Loop state of `check_folder`: `current_files`, `file_count`,
`changes_detected`, and the alerts sent so far.  `send_email_alert` wraps its
whole body in `try/except Exception`, so alert delivery never raises; alerts
are recorded as (path, kind) pairs. -/
structure ScanAcc where
  current : List (String × String)
  fileCount : Nat
  changes : Bool
  notifs : List (String × ChangeKind)

/-- Initial loop state (lines 116—119). -/
def initAcc : ScanAcc := ⟨[], 0, false, []⟩

/-- Body of the walk loop of `check_folder` (lines 121—146) for one file:
skip excluded directories and extensions, skip failed digests, record the
current digest, then compare with the loaded `hashes` value — the comparison
operations may raise when that value is not a dict. -/
def processEntry (dirs exts : List String) (hashes : Json) (acc : ScanAcc)
    (e : Entry) : Except PyExc ScanAcc :=
  if dirExcluded dirs e.dirSegs then .ok acc
  else if extExcluded exts e.fname then .ok acc
  else
    match e.hash with
    | none => .ok acc
    | some h =>
      if h.isEmpty then .ok acc
      else
        let fp := fullPath e
        let acc1 : ScanAcc :=
          { acc with current := dictInsert acc.current fp h,
                     fileCount := acc.fileCount + 1 }
        (pyContains fp hashes).bind (fun b =>
          if b then
            (pyGetItem hashes fp).map (fun v =>
              if pyNeVal v h then
                { acc1 with changes := true,
                            notifs := acc1.notifs ++ [(fp, .modified)] }
              else acc1)
          else
            .ok { acc1 with changes := true,
                            notifs := acc1.notifs ++ [(fp, .newFile)] })

/-- The whole walk loop of `check_folder` over the files the walk yields. -/
def scanLoop (dirs exts : List String) (hashes : Json) (fs : List Entry) :
    Except PyExc ScanAcc :=
  fs.foldlM (processEntry dirs exts hashes) initAcc

/-- On-disk content of one state file: absent, present but not JSON
(`json.load` raises `JSONDecodeError`), or present and parsing to `j`. -/
inductive StateFile where
  | missing
  | unparsable
  | parsed (j : Json)

/-- The two files the Snapshot Store owns. -/
structure Disk where
  hashFile : StateFile
  backupFile : StateFile

/-- Outcome of the `open(HASH_FILE,'w')`/`json.dump` step of `save_hashes`:
success, failure to open (file left untouched), or failure mid-dump (file
already truncated — left in a non-JSON state). -/
inductive WriteFx where
  | ok
  | openFail
  | dumpFail
deriving DecidableEq

/-- Injected I/O outcomes for one `save_hashes` call. -/
structure SaveFx where
  backupOk : Bool
  write : WriteFx

/-- Function `load_hashes` (lines 67—76): missing file or `JSONDecodeError` yield `{}`
(the latter after a logged warning); otherwise the parsed value is returned
as is, whatever its shape. -/
def load_hashes : StateFile → Json
  | .missing => .obj []
  | .unparsable => .obj []
  | .parsed j => j

/-- JSON value `json.dump` writes for the `current_files` dict. -/
def encodeSnap (s : List (String × String)) : Json :=
  .obj (s.map (fun kv => (kv.1, Json.str kv.2)))

/-- Read a parsed object's entries back as string pairs; fails on any
non-string value. -/
def decodeEntries : List (String × Json) → Option (List (String × String))
  | [] => some []
  | kv :: tl =>
    match kv.2 with
    | .str v => (decodeEntries tl).map (fun r => (kv.1, v) :: r)
    | _ => none

/-- Inverse reading of a JSON value as a path→digest mapping. -/
def decodeSnap : Json → Option (List (String × String))
  | .obj kvs => decodeEntries kvs
  | _ => none

/-- Function `backup_hashes` (lines 43—53): when the hash file exists, copy its
content over the backup file; any failure is caught and logged, leaving the
disk unchanged. -/
def backup_hashes (d : Disk) (fx : SaveFx) : Disk :=
  match d.hashFile with
  | .missing => d
  | _ => if fx.backupOk then { d with backupFile := d.hashFile } else d

/-- Function `save_hashes` (lines 78—85): back up first, then overwrite the hash file
with the serialized snapshot; a write failure is caught and logged. -/
def save_hashes (d : Disk) (fx : SaveFx) (s : List (String × String)) : Disk :=
  let d1 := backup_hashes d fx
  match fx.write with
  | .ok => { d1 with hashFile := .parsed (encodeSnap s) }
  | .openFail => d1
  | .dumpFail => { d1 with hashFile := .unparsable }

/-- Set equality of two key lists, the comparison `dict_keys != dict_keys`
performs (view objects compare as sets). -/
def sameKeySet (a b : List String) : Bool :=
  a.all (fun x => b.any (fun y => y = x)) &&
  b.all (fun x => a.any (fun y => y = x))

/-- Result of one `check_folder` pass, with the fields a caller can
observe. -/
structure ScanResult where
  current : List (String × String)
  fileCount : Nat
  changes : Bool
  notifs : List (String × ChangeKind)
  saveInvoked : Bool

/-- Function `check_folder` (lines 114—162): load the persisted hashes, walk the
files, detect deletions, and save when a change was detected or the key sets
differ.  `fs` is the file list the walk yields, `fx` the injected I/O
outcomes of the save step. -/
def checkFolder (dirs exts : List String) (fs : List Entry) (d : Disk)
    (fx : SaveFx) : Except PyExc (ScanResult × Disk) :=
  let hashes := load_hashes d.hashFile
  (scanLoop dirs exts hashes fs).bind (fun acc =>
    (pyKeys hashes).map (fun oldKeys =>
      let deleted := oldKeys.filter
        (fun k => !(alookup acc.current k).isSome)
      let changes := acc.changes || !deleted.isEmpty
      let notifs := acc.notifs ++ deleted.map (fun k => (k, ChangeKind.deleted))
      let saveNeeded := changes || !sameKeySet oldKeys (akeys acc.current)
      let d' := if saveNeeded then save_hashes d fx acc.current else d
      (⟨acc.current, acc.fileCount, changes, notifs, saveNeeded⟩, d')))

/-- One step of the `current_files` accumulation of the walk loop, as a
function of the accumulated dict alone (it does not read the loaded
hashes). -/
def curStep (dirs exts : List String) (acc : List (String × String))
    (e : Entry) : List (String × String) :=
  if dirExcluded dirs e.dirSegs then acc
  else if extExcluded exts e.fname then acc
  else
    match e.hash with
    | none => acc
    | some h => if h.isEmpty then acc else dictInsert acc (fullPath e) h

/-- The snapshot assembled by the walk loop, as a standalone function of the
filesystem and the exclusion policy. -/
def computeCurrent (dirs exts : List String) (fs : List Entry) :
    List (String × String) :=
  fs.foldl (curStep dirs exts) []

/-- True iff the loaded dict has an entry for `p` (line 136
`if filepath in hashes` on a dict). -/
def oldContains (old : List (String × Json)) (p : String) : Bool :=
  (alookup old p).isSome

/-- Value `hashes[filepath]` on a dict known to contain the key. -/
def oldVal (old : List (String × Json)) (p : String) : Json :=
  (alookup old p).getD .null

/-- Paths of the new snapshot absent from the old one (line 142 branch). -/
def addedSet (old : List (String × Json)) (nw : List (String × String)) :
    List String :=
  (nw.filter (fun kv => !oldContains old kv.1)).map Prod.fst

/-- Paths present in both snapshots whose digests differ (line 137 branch). -/
def modifiedSet (old : List (String × Json)) (nw : List (String × String)) :
    List String :=
  (nw.filter (fun kv =>
    oldContains old kv.1 && pyNeVal (oldVal old kv.1) kv.2)).map Prod.fst

/-- Paths present in both snapshots with equal digests (the silent branch). -/
def unchangedSet (old : List (String × Json)) (nw : List (String × String)) :
    List String :=
  (nw.filter (fun kv =>
    oldContains old kv.1 && !pyNeVal (oldVal old kv.1) kv.2)).map Prod.fst

/-- Paths of the old snapshot missing from the new one (line 149,
`set(hashes.keys()) - set(current_files.keys())`). -/
def deletedSet (old : List (String × Json)) (nw : List (String × String)) :
    List String :=
  (akeys old).filter (fun p => !(alookup nw p).isSome)

/-- Pure version of `processEntry` when the loaded value is a dict. -/
def scanStep (dirs exts : List String) (old : List (String × Json))
    (acc : ScanAcc) (e : Entry) : ScanAcc :=
  if dirExcluded dirs e.dirSegs then acc
  else if extExcluded exts e.fname then acc
  else
    match e.hash with
    | none => acc
    | some h =>
      if h.isEmpty then acc
      else
        let fp := fullPath e
        let acc1 : ScanAcc :=
          { acc with current := dictInsert acc.current fp h,
                     fileCount := acc.fileCount + 1 }
        if oldContains old fp then
          if pyNeVal (oldVal old fp) h then
            { acc1 with changes := true,
                        notifs := acc1.notifs ++ [(fp, .modified)] }
          else acc1
        else
          { acc1 with changes := true,
                      notifs := acc1.notifs ++ [(fp, .newFile)] }

/-- Pure version of the whole walk loop on a dict-shaped state. -/
def scanPure (dirs exts : List String) (old : List (String × Json))
    (fs : List Entry) : ScanAcc :=
  fs.foldl (scanStep dirs exts old) initAcc

/-- Modelled from the spec (§4.5): the orchestrator variant that persists the
new snapshot via the Snapshot Store on every cycle, unconditionally, used as
the comparison point for the refinement claim about the conditional save of
`check_folder`. -/
def checkFolderAlwaysSave (dirs exts : List String) (fs : List Entry)
    (d : Disk) (fx : SaveFx) : Except PyExc (ScanResult × Disk) :=
  let hashes := load_hashes d.hashFile
  (scanLoop dirs exts hashes fs).bind (fun acc =>
    (pyKeys hashes).map (fun oldKeys =>
      let deleted := oldKeys.filter
        (fun k => !(alookup acc.current k).isSome)
      let changes := acc.changes || !deleted.isEmpty
      let notifs := acc.notifs ++ deleted.map (fun k => (k, ChangeKind.deleted))
      let d' := save_hashes d fx acc.current
      (⟨acc.current, acc.fileCount, changes, notifs, true⟩, d')))

/-- Lookup inside a JSON value read back from disk, the observation a
subsequent `load_hashes` offers of one path (dict lookup; anything that is
not a dict has no path→digest entries). -/
def jlookup (j : Json) (p : String) : Option Json :=
  match j with
  | .obj kvs => alookup kvs p
  | _ => none

/-! Helper lemmas about lookup, insertion and key sets. -/

theorem alookup_cons {α : Type} (kv : String × α) (tl : List (String × α))
    (p : String) :
    alookup (kv :: tl) p = if kv.1 = p then some kv.2 else alookup tl p := rfl

theorem alookup_isSome_iff {α : Type} (l : List (String × α)) (p : String) :
    (alookup l p).isSome = true ↔ p ∈ akeys l := by
  induction l with
  | nil => simp [alookup, akeys]
  | cons kv tl ih =>
    by_cases hk : kv.1 = p
    · simp [alookup_cons, akeys, hk]
    · simp [alookup_cons, akeys, hk, ih, Ne.symm hk]

theorem alookup_eq_some_mem {α : Type} {l : List (String × α)} {p : String}
    {v : α} (h : alookup l p = some v) : (p, v) ∈ l := by
  induction l with
  | nil => simp [alookup] at h
  | cons kv tl ih =>
    rw [alookup_cons] at h
    by_cases hk : kv.1 = p
    · rw [if_pos hk] at h
      obtain ⟨a, b⟩ := kv
      simp only at hk
      simp only [Option.some.injEq] at h
      rw [← hk, ← h]
      exact List.mem_cons_self _ _
    · rw [if_neg hk] at h
      exact List.mem_cons_of_mem _ (ih h)

theorem alookup_map_str (l : List (String × String)) (p : String) :
    alookup (l.map (fun kv => (kv.1, Json.str kv.2))) p =
      (alookup l p).map Json.str := by
  induction l with
  | nil => simp [alookup]
  | cons kv tl ih =>
    by_cases hk : kv.1 = p
    · simp [alookup_cons, hk]
    · simp [alookup_cons, hk, ih]

theorem alookup_append {α : Type} (l₁ l₂ : List (String × α)) (p : String) :
    alookup (l₁ ++ l₂) p =
      match alookup l₁ p with
      | some v => some v
      | none => alookup l₂ p := by
  induction l₁ with
  | nil => simp [alookup]
  | cons kv tl ih =>
    by_cases hk : kv.1 = p
    · simp [alookup_cons, hk]
    · simp [alookup_cons, hk, ih]

theorem alookup_map_update (l : List (String × String)) (k v p : String) :
    alookup (l.map (fun kv => if kv.1 = k then (k, v) else kv)) p =
      if p = k then (if (alookup l k).isSome then some v else none)
      else alookup l p := by
  induction l with
  | nil => simp [alookup]
  | cons kv tl ih =>
    by_cases hk : kv.1 = k
    · by_cases hp : p = k
      · simp [alookup_cons, hk, hp, ih]
      · have hne : kv.1 ≠ p := by rw [hk]; exact fun hc => hp hc.symm
        simp [alookup_cons, hk, hp, ih, hne, Ne.symm hp]
    · by_cases hp : kv.1 = p
      · have hpk : ¬p = k := by rw [← hp]; exact fun hc => hk hc
        simp [alookup_cons, hk, hp, hpk]
      · simp [alookup_cons, hk, hp, ih]

theorem alookup_dictInsert_self (l : List (String × String)) (k v : String) :
    alookup (dictInsert l k v) k = some v := by
  unfold dictInsert
  by_cases hs : (alookup l k).isSome = true
  · simp [hs, alookup_map_update]
  · rw [if_neg hs, alookup_append]
    have h0 : alookup l k = none := Option.not_isSome_iff_eq_none.mp hs
    simp [h0, alookup_cons]

theorem alookup_dictInsert_ne (l : List (String × String)) (k v p : String)
    (h : p ≠ k) : alookup (dictInsert l k v) p = alookup l p := by
  unfold dictInsert
  by_cases hs : (alookup l k).isSome = true
  · simp [hs, alookup_map_update, h]
  · rw [if_neg hs, alookup_append]
    cases hl : alookup l p with
    | some v' => simp
    | none => simp [alookup_cons, Ne.symm h, alookup]

theorem mem_dictInsert {l : List (String × String)} {k v : String}
    {kv : String × String} (h : kv ∈ dictInsert l k v) :
    kv = (k, v) ∨ kv ∈ l := by
  unfold dictInsert at h
  by_cases hs : (alookup l k).isSome = true
  · rw [if_pos hs] at h
    rcases List.mem_map.mp h with ⟨a, ha, hev⟩
    by_cases hk : a.1 = k
    · left
      rw [if_pos hk] at hev
      exact hev.symm
    · right
      rw [if_neg hk] at hev
      rw [← hev]
      exact ha
  · rw [if_neg hs] at h
    rcases List.mem_append.mp h with h | h
    · right; exact h
    · left; simpa using h

theorem akeys_map_update (l : List (String × String)) (k v : String) :
    akeys (l.map (fun kv => if kv.1 = k then (k, v) else kv)) = akeys l := by
  induction l with
  | nil => simp [akeys]
  | cons kv tl ih =>
    by_cases hk : kv.1 = k
    · simp only [akeys, List.map_cons] at ih ⊢
      rw [if_pos hk, ih]
      simp [hk]
    · simp only [akeys, List.map_cons] at ih ⊢
      rw [if_neg hk, ih]

theorem akeys_dictInsert (l : List (String × String)) (k v : String) :
    akeys (dictInsert l k v) =
      if (alookup l k).isSome then akeys l else akeys l ++ [k] := by
  unfold dictInsert
  by_cases hs : (alookup l k).isSome = true
  · simp [hs, akeys_map_update]
  · simp [hs, akeys]

theorem nodup_akeys_dictInsert {l : List (String × String)} (k v : String)
    (h : (akeys l).Nodup) : (akeys (dictInsert l k v)).Nodup := by
  rw [akeys_dictInsert]
  by_cases hs : (alookup l k).isSome = true
  · simpa [hs] using h
  · have hk : k ∉ akeys l := fun hc =>
      hs ((alookup_isSome_iff l k).mpr hc)
    simp [hs, List.nodup_append, h, hk]

theorem foldlM_ok {α β : Type} (f : β → α → Except PyExc β) (g : β → α → β)
    (hfg : ∀ acc a, f acc a = .ok (g acc a)) (l : List α) :
    ∀ acc : β, List.foldlM f acc l = .ok (List.foldl g acc l) := by
  induction l with
  | nil => intro acc; rfl
  | cons a tl ih =>
    intro acc
    simp only [List.foldlM_cons, hfg, List.foldl_cons]
    exact ih (g acc a)

theorem processEntry_obj (dirs exts : List String)
    (old : List (String × Json)) (acc : ScanAcc) (e : Entry) :
    processEntry dirs exts (.obj old) acc e =
      .ok (scanStep dirs exts old acc e) := by
  unfold processEntry scanStep
  cases hd : dirExcluded dirs e.dirSegs with
  | true => simp
  | false =>
    simp only [Bool.false_eq_true, if_false]
    cases hx : extExcluded exts e.fname with
    | true => simp
    | false =>
      simp only [Bool.false_eq_true, if_false]
      cases he : e.hash with
      | none => simp
      | some h =>
        cases hne : h.isEmpty with
        | true => simp [hne]
        | false =>
          simp only [hne, Bool.false_eq_true, if_false, pyContains]
          cases hc : alookup old (fullPath e) with
          | none =>
            simp [Except.bind, oldContains, hc, hne]
          | some v =>
            simp [Except.bind, Except.map, oldContains, oldVal, hc, pyGetItem,
              hne]

theorem scanLoop_obj (dirs exts : List String) (old : List (String × Json))
    (fs : List Entry) :
    scanLoop dirs exts (.obj old) fs = .ok (scanPure dirs exts old fs) :=
  foldlM_ok _ _ (processEntry_obj dirs exts old) fs initAcc

theorem scanStep_current (dirs exts : List String)
    (old : List (String × Json)) (acc : ScanAcc) (e : Entry) :
    (scanStep dirs exts old acc e).current = curStep dirs exts acc.current e := by
  unfold scanStep curStep
  cases hd : dirExcluded dirs e.dirSegs with
  | true => simp
  | false =>
    simp only [Bool.false_eq_true, if_false]
    cases hx : extExcluded exts e.fname with
    | true => simp
    | false =>
      simp only [Bool.false_eq_true, if_false]
      cases he : e.hash with
      | none => simp
      | some h =>
        cases hne : h.isEmpty with
        | true => simp [hne]
        | false =>
          simp only [hne, Bool.false_eq_true, if_false]
          cases hc : oldContains old (fullPath e) with
          | false => simp [hc, hne]
          | true =>
            cases hv : pyNeVal (oldVal old (fullPath e)) h with
            | false => simp [hc, hv, hne]
            | true => simp [hc, hv, hne]

theorem foldl_scanStep_current (dirs exts : List String)
    (old : List (String × Json)) (fs : List Entry) :
    ∀ acc : ScanAcc,
      (List.foldl (scanStep dirs exts old) acc fs).current =
        List.foldl (curStep dirs exts) acc.current fs := by
  induction fs with
  | nil => intro acc; rfl
  | cons e tl ih =>
    intro acc
    simp only [List.foldl_cons]
    rw [ih, scanStep_current]

theorem scanPure_current (dirs exts : List String)
    (old : List (String × Json)) (fs : List Entry) :
    (scanPure dirs exts old fs).current = computeCurrent dirs exts fs := by
  unfold scanPure computeCurrent
  exact foldl_scanStep_current dirs exts old fs initAcc

theorem scanStep_changes_mono (dirs exts : List String)
    (old : List (String × Json)) (acc : ScanAcc) (e : Entry)
    (h : acc.changes = true) : (scanStep dirs exts old acc e).changes = true := by
  unfold scanStep
  cases hd : dirExcluded dirs e.dirSegs with
  | true => simpa using h
  | false =>
    simp only [Bool.false_eq_true, if_false]
    cases hx : extExcluded exts e.fname with
    | true => simpa using h
    | false =>
      simp only [Bool.false_eq_true, if_false]
      cases he : e.hash with
      | none => simpa using h
      | some hh =>
        cases hne : hh.isEmpty with
        | true => simpa [hne] using h
        | false =>
          simp only [hne, Bool.false_eq_true, if_false]
          cases hc : oldContains old (fullPath e) with
          | false => simp [hne, hc]
          | true =>
            cases hv : pyNeVal (oldVal old (fullPath e)) hh with
            | false => simpa [hne, hc, hv] using h
            | true => simp [hne, hc, hv]

theorem foldl_changes_mono (dirs exts : List String)
    (old : List (String × Json)) (fs : List Entry) :
    ∀ acc : ScanAcc, acc.changes = true →
      (List.foldl (scanStep dirs exts old) acc fs).changes = true := by
  induction fs with
  | nil => intro acc h; exact h
  | cons e tl ih =>
    intro acc h
    simp only [List.foldl_cons]
    exact ih _ (scanStep_changes_mono dirs exts old acc e h)

theorem Json_eqStr_true {v : Json} {h : String} :
    Json.eqStr v h = true ↔ v = .str h := by
  cases v <;> simp [Json.eqStr]

theorem scanStep_unchanged_inv (dirs exts : List String)
    (old : List (String × Json)) (acc : ScanAcc) (e : Entry)
    (hstep : (scanStep dirs exts old acc e).changes = false)
    (hacc : ∀ kv ∈ acc.current, alookup old kv.1 = some (.str kv.2)) :
    ∀ kv ∈ (scanStep dirs exts old acc e).current,
      alookup old kv.1 = some (.str kv.2) := by
  unfold scanStep at hstep ⊢
  cases hd : dirExcluded dirs e.dirSegs with
  | true => simpa using hacc
  | false =>
    simp only [hd, Bool.false_eq_true, if_false] at hstep ⊢
    cases hx : extExcluded exts e.fname with
    | true => simpa [hx] using hacc
    | false =>
      simp only [hx, Bool.false_eq_true, if_false] at hstep ⊢
      cases he : e.hash with
      | none => simpa [he] using hacc
      | some h =>
        simp only [he] at hstep ⊢
        cases hne : h.isEmpty with
        | true => simpa [hne] using hacc
        | false =>
          simp only [hne, Bool.false_eq_true, if_false] at hstep ⊢
          cases hc : oldContains old (fullPath e) with
          | false => simp [hc] at hstep
          | true =>
            cases hv : pyNeVal (oldVal old (fullPath e)) h with
            | true => simp [hc, hv] at hstep
            | false =>
              simp only [hc, hv, Bool.false_eq_true, if_false, if_true]
              intro kv hkv
              rcases mem_dictInsert hkv with hkv | hkv
              · rw [hkv]
                have hvstr : oldVal old (fullPath e) = .str h := by
                  have : Json.eqStr (oldVal old (fullPath e)) h = true := by
                    revert hv
                    unfold pyNeVal
                    cases Json.eqStr (oldVal old (fullPath e)) h <;> simp
                  exact Json_eqStr_true.mp this
                have hsome : (alookup old (fullPath e)).isSome = true := hc
                cases hl : alookup old (fullPath e) with
                | none => rw [hl] at hsome; cases hsome
                | some v =>
                  unfold oldVal at hvstr
                  rw [hl] at hvstr
                  simp only [Option.getD_some] at hvstr
                  simp [hvstr]
              · exact hacc kv hkv

theorem foldl_unchanged_inv (dirs exts : List String)
    (old : List (String × Json)) (fs : List Entry) :
    ∀ acc : ScanAcc,
      (List.foldl (scanStep dirs exts old) acc fs).changes = false →
      (∀ kv ∈ acc.current, alookup old kv.1 = some (.str kv.2)) →
      ∀ kv ∈ (List.foldl (scanStep dirs exts old) acc fs).current,
        alookup old kv.1 = some (.str kv.2) := by
  induction fs with
  | nil => intro acc _ hacc; exact hacc
  | cons e tl ih =>
    intro acc h hacc
    simp only [List.foldl_cons] at h ⊢
    have hstep : (scanStep dirs exts old acc e).changes = false := by
      cases hs : (scanStep dirs exts old acc e).changes with
      | false => rfl
      | true =>
        have := foldl_changes_mono dirs exts old tl _ hs
        rw [this] at h
        cases h
    exact ih _ h (scanStep_unchanged_inv dirs exts old acc e hstep hacc)

theorem scanPure_unchanged (dirs exts : List String)
    (old : List (String × Json)) (fs : List Entry)
    (h : (scanPure dirs exts old fs).changes = false) :
    ∀ kv ∈ computeCurrent dirs exts fs,
      alookup old kv.1 = some (.str kv.2) := by
  intro kv hkv
  rw [← scanPure_current dirs exts old fs] at hkv
  exact foldl_unchanged_inv dirs exts old fs initAcc h
    (by intro kv hkv; simp [initAcc] at hkv) kv hkv

theorem mem_akeys_curStep (dirs exts : List String)
    (acc : List (String × String)) (e : Entry) (p : String) :
    p ∈ akeys (curStep dirs exts acc e) ↔
      p ∈ akeys acc ∨
        (fullPath e = p ∧ dirExcluded dirs e.dirSegs = false ∧
          extExcluded exts e.fname = false ∧ hashOk e.hash = true) := by
  unfold curStep
  cases hd : dirExcluded dirs e.dirSegs with
  | true => simp [hd]
  | false =>
    simp only [hd, Bool.false_eq_true, if_false]
    cases hx : extExcluded exts e.fname with
    | true => simp [hx]
    | false =>
      simp only [hx, Bool.false_eq_true, if_false]
      cases he : e.hash with
      | none => simp [hashOk]
      | some h =>
        cases hne : h.isEmpty with
        | true => simp [hne, hashOk]
        | false =>
          simp only [hne, Bool.false_eq_true, if_false]
          rw [akeys_dictInsert]
          by_cases hs : (alookup acc (fullPath e)).isSome = true
          · simp only [hs, if_true, hashOk, hne]
            constructor
            · intro hm; exact Or.inl hm
            · rintro (hm | ⟨hfp, _⟩)
              · exact hm
              · rw [← hfp]
                exact (alookup_isSome_iff acc (fullPath e)).mp hs
          · simp [hs, hashOk, hne, List.mem_append, eq_comm]

theorem mem_akeys_foldl_curStep (dirs exts : List String) (fs : List Entry) :
    ∀ (acc : List (String × String)) (p : String),
      p ∈ akeys (List.foldl (curStep dirs exts) acc fs) ↔
        p ∈ akeys acc ∨
          ∃ e ∈ fs, fullPath e = p ∧ dirExcluded dirs e.dirSegs = false ∧
            extExcluded exts e.fname = false ∧ hashOk e.hash = true := by
  induction fs with
  | nil => intro acc p; simp
  | cons e tl ih =>
    intro acc p
    simp only [List.foldl_cons]
    rw [ih, mem_akeys_curStep]
    simp only [List.mem_cons]
    constructor
    · rintro ((hm | hnew) | ⟨f, hf, hp⟩)
      · exact Or.inl hm
      · exact Or.inr ⟨e, Or.inl rfl, hnew⟩
      · exact Or.inr ⟨f, Or.inr hf, hp⟩
    · rintro (hm | ⟨f, (hf | hf), hp⟩)
      · exact Or.inl (Or.inl hm)
      · exact Or.inl (Or.inr (hf ▸ hp))
      · exact Or.inr ⟨f, hf, hp⟩

theorem mem_akeys_computeCurrent (dirs exts : List String) (fs : List Entry)
    (p : String) :
    p ∈ akeys (computeCurrent dirs exts fs) ↔
      ∃ e ∈ fs, fullPath e = p ∧ dirExcluded dirs e.dirSegs = false ∧
        extExcluded exts e.fname = false ∧ hashOk e.hash = true := by
  unfold computeCurrent
  rw [mem_akeys_foldl_curStep]
  simp [akeys]

theorem nodup_akeys_curStep (dirs exts : List String)
    (acc : List (String × String)) (e : Entry)
    (h : (akeys acc).Nodup) : (akeys (curStep dirs exts acc e)).Nodup := by
  unfold curStep
  cases hd : dirExcluded dirs e.dirSegs with
  | true => simpa using h
  | false =>
    simp only [Bool.false_eq_true, if_false]
    cases hx : extExcluded exts e.fname with
    | true => simpa using h
    | false =>
      simp only [Bool.false_eq_true, if_false]
      cases he : e.hash with
      | none => simpa using h
      | some hh =>
        cases hne : hh.isEmpty with
        | true => simpa [hne] using h
        | false =>
          simp only [hne, Bool.false_eq_true, if_false]
          exact nodup_akeys_dictInsert _ _ h

theorem nodup_akeys_computeCurrent (dirs exts : List String)
    (fs : List Entry) : (akeys (computeCurrent dirs exts fs)).Nodup := by
  unfold computeCurrent
  have hgen : ∀ (l : List Entry) (acc : List (String × String)),
      (akeys acc).Nodup → (akeys (List.foldl (curStep dirs exts) acc l)).Nodup := by
    intro l
    induction l with
    | nil => intro acc h; exact h
    | cons e tl ih =>
      intro acc h
      simp only [List.foldl_cons]
      exact ih _ (nodup_akeys_curStep dirs exts acc e h)
  exact hgen fs [] (by simp [akeys])

theorem sameKeySet_iff (a b : List String) :
    sameKeySet a b = true ↔ (∀ p, p ∈ a ↔ p ∈ b) := by
  unfold sameKeySet
  simp only [Bool.and_eq_true, List.all_eq_true, List.any_eq_true,
    decide_eq_true_eq, exists_eq_right]
  constructor
  · rintro ⟨h1, h2⟩ p
    exact ⟨fun hp => h1 p hp, fun hp => h2 p hp⟩
  · intro h
    exact ⟨fun p hp => (h p).mp hp, fun p hp => (h p).mpr hp⟩

theorem checkFolder_obj (dirs exts : List String) (fs : List Entry)
    (old : List (String × Json)) (bk : StateFile) (fx : SaveFx) :
    checkFolder dirs exts fs ⟨.parsed (.obj old), bk⟩ fx =
      (let acc := scanPure dirs exts old fs
       let deleted := (akeys old).filter
         (fun k => !(alookup acc.current k).isSome)
       let changes := acc.changes || !deleted.isEmpty
       let saveNeeded := changes || !sameKeySet (akeys old) (akeys acc.current)
       .ok (⟨acc.current, acc.fileCount, changes,
             acc.notifs ++ deleted.map (fun k => (k, ChangeKind.deleted)),
             saveNeeded⟩,
            if saveNeeded then
              save_hashes ⟨.parsed (.obj old), bk⟩ fx acc.current
            else ⟨.parsed (.obj old), bk⟩)) := by
  simp only [checkFolder, load_hashes, scanLoop_obj, pyKeys, Except.bind,
    Except.map]

theorem checkFolder_isOk (dirs exts : List String) (fs : List Entry)
    (d : Disk) (fx : SaveFx) (kvs : List (String × Json))
    (h : load_hashes d.hashFile = .obj kvs) :
    ∃ r d', checkFolder dirs exts fs d fx = .ok (r, d') := by
  simp only [checkFolder, h, scanLoop_obj, pyKeys, Except.bind, Except.map]
  exact ⟨_, _, rfl⟩

theorem decodeEntries_map (S : List (String × String)) :
    decodeEntries (S.map (fun kv => (kv.1, Json.str kv.2))) = some S := by
  induction S with
  | nil => rfl
  | cons kv tl ih => simp [decodeEntries, ih]

theorem decodeSnap_encodeSnap (S : List (String × String)) :
    decodeSnap (encodeSnap S) = some S := by
  simp [decodeSnap, encodeSnap, decodeEntries_map]

theorem alookup_eq_of_mem_nodup {α : Type} {l : List (String × α)}
    {p : String} {v : α} (hnd : (akeys l).Nodup) (hm : (p, v) ∈ l) :
    alookup l p = some v := by
  induction l with
  | nil => simp at hm
  | cons kv tl ih =>
    simp only [akeys, List.map_cons, List.nodup_cons] at hnd
    rcases List.mem_cons.mp hm with hm | hm
    · rw [← hm, alookup_cons, if_pos rfl]
    · rw [alookup_cons]
      by_cases hk : kv.1 = p
      · exfalso
        apply hnd.1
        rw [hk]
        exact List.mem_map.mpr ⟨(p, v), hm, rfl⟩
      · rw [if_neg hk]
        exact ih hnd.2 hm

theorem curStep_none (dirs exts : List String)
    (acc : List (String × String)) (e : Entry) (he : e.hash = none) :
    curStep dirs exts acc e = acc := by
  unfold curStep
  rw [he]
  cases dirExcluded dirs e.dirSegs <;> cases extExcluded exts e.fname <;> simp

theorem checkFolderAlwaysSave_obj (dirs exts : List String) (fs : List Entry)
    (old : List (String × Json)) (bk : StateFile) (fx : SaveFx) :
    checkFolderAlwaysSave dirs exts fs ⟨.parsed (.obj old), bk⟩ fx =
      (let acc := scanPure dirs exts old fs
       let deleted := (akeys old).filter
         (fun k => !(alookup acc.current k).isSome)
       let changes := acc.changes || !deleted.isEmpty
       .ok (⟨acc.current, acc.fileCount, changes,
             acc.notifs ++ deleted.map (fun k => (k, ChangeKind.deleted)),
             true⟩,
            save_hashes ⟨.parsed (.obj old), bk⟩ fx acc.current)) := by
  simp only [checkFolderAlwaysSave, load_hashes, scanLoop_obj, pyKeys,
    Except.bind, Except.map]

theorem skip_no_op (dirs exts : List String) (fs : List Entry)
    (old : List (String × Json))
    (hch : (scanPure dirs exts old fs).changes = false)
    (hkeys : sameKeySet (akeys old)
      (akeys (scanPure dirs exts old fs).current) = true) :
    ∀ p, alookup old p =
      (alookup (scanPure dirs exts old fs).current p).map Json.str := by
  intro p
  have hcur := scanPure_current dirs exts old fs
  have hmem := (sameKeySet_iff _ _).mp hkeys p
  cases hl : alookup (scanPure dirs exts old fs).current p with
  | some h =>
    have hm : (p, h) ∈ computeCurrent dirs exts fs := by
      rw [← hcur]
      exact alookup_eq_some_mem hl
    have := scanPure_unchanged dirs exts old fs hch (p, h) hm
    show alookup old p = some (Json.str h)
    exact this
  | none =>
    have hnot : p ∉ akeys (scanPure dirs exts old fs).current := by
      intro hc
      have := (alookup_isSome_iff _ p).mpr hc
      rw [hl] at this
      cases this
    have hnoto : p ∉ akeys old := fun hc => hnot (hmem.mp hc)
    show alookup old p = none
    cases hlo : alookup old p with
    | none => rfl
    | some v =>
      exfalso
      apply hnoto
      rw [← alookup_isSome_iff, hlo]
      rfl

theorem mem_addedSet (old : List (String × Json))
    (nw : List (String × String)) (p : String) :
    p ∈ addedSet old nw ↔ p ∈ akeys nw ∧ oldContains old p = false := by
  unfold addedSet akeys
  simp only [List.mem_map, List.mem_filter]
  constructor
  · rintro ⟨kv, ⟨hm, hc⟩, hp⟩
    subst hp
    exact ⟨⟨kv, hm, rfl⟩, by simpa using hc⟩
  · rintro ⟨⟨kv, hm, hp⟩, hc⟩
    subst hp
    exact ⟨kv, ⟨hm, by simp [hc]⟩, rfl⟩

theorem mem_modifiedSet (old : List (String × Json))
    (nw : List (String × String)) (p : String) :
    p ∈ modifiedSet old nw ↔
      ∃ kv ∈ nw, kv.1 = p ∧ oldContains old p = true ∧
        pyNeVal (oldVal old p) kv.2 = true := by
  unfold modifiedSet
  simp only [List.mem_map, List.mem_filter, Bool.and_eq_true]
  constructor
  · rintro ⟨kv, ⟨hm, hc, hv⟩, hp⟩
    subst hp
    exact ⟨kv, hm, rfl, hc, hv⟩
  · rintro ⟨kv, hm, hp, hc, hv⟩
    subst hp
    exact ⟨kv, ⟨hm, hc, hv⟩, rfl⟩

theorem mem_unchangedSet (old : List (String × Json))
    (nw : List (String × String)) (p : String) :
    p ∈ unchangedSet old nw ↔
      ∃ kv ∈ nw, kv.1 = p ∧ oldContains old p = true ∧
        pyNeVal (oldVal old p) kv.2 = false := by
  unfold unchangedSet
  simp only [List.mem_map, List.mem_filter, Bool.and_eq_true]
  constructor
  · rintro ⟨kv, ⟨hm, hc, hv⟩, hp⟩
    subst hp
    exact ⟨kv, hm, rfl, hc, by simpa using hv⟩
  · rintro ⟨kv, hm, hp, hc, hv⟩
    subst hp
    exact ⟨kv, ⟨hm, hc, by simp [hv]⟩, rfl⟩

theorem mem_deletedSet (old : List (String × Json))
    (nw : List (String × String)) (p : String) :
    p ∈ deletedSet old nw ↔ p ∈ akeys old ∧ p ∉ akeys nw := by
  unfold deletedSet
  simp only [List.mem_filter, Bool.not_eq_true']
  constructor
  · rintro ⟨hm, hc⟩
    refine ⟨hm, fun hk => ?_⟩
    rw [(alookup_isSome_iff nw p).mpr hk] at hc
    cases hc
  · rintro ⟨hm, hk⟩
    refine ⟨hm, ?_⟩
    cases hs : (alookup nw p).isSome with
    | false => rfl
    | true => exact absurd ((alookup_isSome_iff nw p).mp hs) hk

theorem mem_set_imp_keys_nw {old : List (String × Json)}
    {nw : List (String × String)} {p : String}
    (h : p ∈ addedSet old nw ∨ p ∈ modifiedSet old nw ∨
      p ∈ unchangedSet old nw) : p ∈ akeys nw := by
  rcases h with h | h | h
  · exact ((mem_addedSet old nw p).mp h).1
  · rcases (mem_modifiedSet old nw p).mp h with ⟨kv, hm, hp, _⟩
    exact hp ▸ List.mem_map.mpr ⟨kv, hm, rfl⟩
  · rcases (mem_unchangedSet old nw p).mp h with ⟨kv, hm, hp, _⟩
    exact hp ▸ List.mem_map.mpr ⟨kv, hm, rfl⟩

/-- Claim C4, counterexample: a state file that parses to the JSON array `[]`
is wrongly shaped, yet `load_hashes` returns that array unchanged — not the
empty snapshot the claim promises (only `json.JSONDecodeError` is caught). -/
theorem c4_counterexample :
    load_hashes (.parsed (.arr [])) = .arr [] ∧ Json.arr [] ≠ Json.obj [] :=
  ⟨rfl, fun h => Json.noConfusion h⟩

/-- Claim C4, amended: `load_hashes` returns the empty snapshot when the
state file is missing or unparsable (the latter after a logged warning), and
returns the persisted mapping when the file holds a serialized snapshot; a
parsable but wrongly-shaped file, however, is returned as parsed, not reset
to the empty snapshot. -/
theorem c4_load_behavior :
    ∀ S : List (String × String),
      load_hashes .missing = .obj [] ∧
      load_hashes .unparsable = .obj [] ∧
      load_hashes (.parsed (encodeSnap S)) = encodeSnap S ∧
      decodeSnap (load_hashes (.parsed (encodeSnap S))) = some S :=
  fun S => ⟨rfl, rfl, rfl, decodeSnap_encodeSnap S⟩

/-- Claim C9: saving a well-formed snapshot and loading the state file back
returns exactly that snapshot (serialization modelled at the parsed-value
level; the write step itself succeeds). -/
theorem c9_round_trip (d : Disk) (bk : Bool) (S : List (String × String)) :
    load_hashes ((save_hashes d ⟨bk, .ok⟩ S).hashFile) = encodeSnap S ∧
    decodeSnap (encodeSnap S) = some S := by
  constructor
  · simp [save_hashes, load_hashes]
  · exact decodeSnap_encodeSnap S

/-- Claim C6: when a state file exists, `save_hashes` copies it to the backup
location before the overwrite, so after any failing write the pre-save state
is still in the backup; and a failed backup does not block the subsequent
write of the new state. -/
theorem c6_backup_before_write (d : Disk) (bk : Bool) (w : WriteFx)
    (S : List (String × String)) (hne : d.hashFile ≠ .missing) :
    (bk = true → (save_hashes d ⟨bk, w⟩ S).backupFile = d.hashFile) ∧
    (bk = true → load_hashes (save_hashes d ⟨bk, w⟩ S).backupFile =
      load_hashes d.hashFile) ∧
    (w = .ok → (save_hashes d ⟨bk, w⟩ S).hashFile = .parsed (encodeSnap S)) := by
  have h1 : bk = true → (save_hashes d ⟨bk, w⟩ S).backupFile = d.hashFile := by
    intro hbk
    subst hbk
    unfold save_hashes backup_hashes
    cases hf : d.hashFile with
    | missing => exact absurd hf hne
    | unparsable => cases w <;> simp
    | parsed j => cases w <;> simp
  refine ⟨h1, fun hbk => by rw [h1 hbk], fun hw => by subst hw; simp [save_hashes]⟩

/-- Witness for C6 at a concrete disk, with the backup succeeding and the
overwrite failing mid-dump. -/
theorem c6_backup_before_write_witness :
    (Disk.mk (.parsed (.obj [])) .missing).hashFile ≠ .missing ∧
    ((true = true →
        (save_hashes ⟨.parsed (.obj []), .missing⟩ ⟨true, .dumpFail⟩
          []).backupFile = (Disk.mk (.parsed (.obj [])) .missing).hashFile) ∧
      (true = true →
        load_hashes (save_hashes ⟨.parsed (.obj []), .missing⟩
          ⟨true, .dumpFail⟩ []).backupFile =
          load_hashes (Disk.mk (.parsed (.obj [])) .missing).hashFile) ∧
      (WriteFx.dumpFail = .ok →
        (save_hashes ⟨.parsed (.obj []), .missing⟩ ⟨true, .dumpFail⟩
          []).hashFile = .parsed (encodeSnap []))) :=
  ⟨fun h => StateFile.noConfusion h,
   c6_backup_before_write ⟨.parsed (.obj []), .missing⟩ true .dumpFail []
     (fun h => StateFile.noConfusion h)⟩

/-- Claim C8: diffing against an empty old snapshot classifies every new
path as added — `added` is exactly the key list of the new snapshot — with
`modified` and `deleted` empty. -/
theorem c8_empty_old_all_added (nw : List (String × String)) :
    addedSet [] nw = akeys nw ∧ modifiedSet [] nw = [] ∧
      deletedSet [] nw = [] := by
  refine ⟨?_, ?_, rfl⟩
  · simp [addedSet, oldContains, alookup, akeys]
  · simp [modifiedSet, oldContains, alookup]

/-- Claim C3, counterexample: a state file containing the JSON number `3`
parses, so `load_hashes` does not reset it, and the scan cycle then raises
`AttributeError` at `set(hashes.keys())` — an unhandled exception that
terminates the process without an interrupt. -/
theorem c3_counterexample :
    checkFolder EXCLUDE_DIRECTORIES EXCLUDE_EXTENSIONS []
      ⟨.parsed (.num 3), .missing⟩ ⟨true, .ok⟩ = .error .attributeError := rfl

/-- Claim C3, amended: whenever the loaded state is dict-shaped (which
includes a missing state file and an unparsable one, both reset to the empty
dict), a scan cycle completes without an unhandled exception for every
filesystem (including per-file digest failures) and every injected
backup/write failure; but a state file parsing to a non-dict JSON value
crashes the cycle. -/
theorem c3_no_crash_on_good_state (dirs exts : List String) (fs : List Entry)
    (d : Disk) (fx : SaveFx) (kvs : List (String × Json))
    (h : load_hashes d.hashFile = .obj kvs) :
    ∃ r d', checkFolder dirs exts fs d fx = .ok (r, d') :=
  checkFolder_isOk dirs exts fs d fx kvs h

/-- Witness for C3 at a concrete input: unparsable state file, one file whose
digest fails, backup and write both failing. -/
theorem c3_no_crash_on_good_state_witness :
    load_hashes (Disk.mk .unparsable .missing).hashFile = .obj [] ∧
    ∃ r d', checkFolder EXCLUDE_DIRECTORIES EXCLUDE_EXTENSIONS
      [⟨["test_folder"], "a.txt", none⟩] ⟨.unparsable, .missing⟩
      ⟨false, .dumpFail⟩ = .ok (r, d') :=
  ⟨rfl, c3_no_crash_on_good_state EXCLUDE_DIRECTORIES EXCLUDE_EXTENSIONS
    [⟨["test_folder"], "a.txt", none⟩] ⟨.unparsable, .missing⟩
    ⟨false, .dumpFail⟩ [] rfl⟩

/-- Claim C2, counterexample: with exclusion fragment "b/c", the file
test_folder/b/c/f.txt matches neither per-segment rule — no ancestor
directory segment matches (or even contains) the fragment — nor any
extension rule, and is readable, yet the produced snapshot is empty, because
the code tests each fragment as a substring of the whole joined directory
path, not against individual segments. -/
theorem c2_counterexample :
    (∀ seg ∈ ["test_folder", "b", "c"], strIn "b/c" seg = false) ∧
    extExcluded [] "f.txt" = false ∧
    hashOk (some "h") = true ∧
    computeCurrent ["b/c"] []
      [⟨["test_folder", "b", "c"], "f.txt", some "h"⟩] = [] ∧
    checkFolder ["b/c"] [] [⟨["test_folder", "b", "c"], "f.txt", some "h"⟩]
      ⟨.missing, .missing⟩ ⟨true, .ok⟩ =
      .ok (⟨[], 0, false, [], false⟩, ⟨.missing, .missing⟩) := by
  refine ⟨by decide, by decide, by decide, by decide, rfl⟩

/-- Claim C2, amended: for every exclusion policy, a path appears in the
produced snapshot iff some entry of the walk has that path, no excluded
directory fragment occurs as a substring of its joined directory path, its
filename ends with no excluded extension, and its digest succeeded; in
particular a file whose directory path contains an excluded fragment, or
whose name ends with an excluded extension, never appears. -/
theorem c2_exclusion_characterization (dirs exts : List String)
    (fs : List Entry) (p : String) :
    p ∈ akeys (computeCurrent dirs exts fs) ↔
      ∃ e ∈ fs, fullPath e = p ∧
        (∀ frag ∈ dirs, strIn frag (joinPath e.dirSegs) = false) ∧
        (∀ ext ∈ exts, strEnds e.fname ext = false) ∧
        hashOk e.hash = true := by
  rw [mem_akeys_computeCurrent]
  constructor
  · rintro ⟨e, he, hp, hd, hx, hh⟩
    refine ⟨e, he, hp, ?_, ?_, hh⟩
    · intro frag hf
      rcases hb : strIn frag (joinPath e.dirSegs) with _ | _
      · rfl
      · exfalso
        have : dirExcluded dirs e.dirSegs = true :=
          List.any_eq_true.mpr ⟨frag, hf, hb⟩
        rw [this] at hd
        cases hd
    · intro ext hx'
      rcases hb : strEnds e.fname ext with _ | _
      · rfl
      · exfalso
        have : extExcluded exts e.fname = true :=
          List.any_eq_true.mpr ⟨ext, hx', hb⟩
        rw [this] at hx
        cases hx
  · rintro ⟨e, he, hp, hd, hx, hh⟩
    refine ⟨e, he, hp, ?_, ?_, hh⟩
    · cases hb : dirExcluded dirs e.dirSegs with
      | false => rfl
      | true =>
        exfalso
        rcases List.any_eq_true.mp hb with ⟨frag, hf, hfr⟩
        rw [hd frag hf] at hfr
        cases hfr
    · cases hb : extExcluded exts e.fname with
      | false => rfl
      | true =>
        exfalso
        rcases List.any_eq_true.mp hb with ⟨ext, hx', hxr⟩
        rw [hx ext hx'] at hxr
        cases hxr

/-- Claim C5: for snapshots `old` and `new` (new with unique keys, as a dict
has), the four classification sets partition `keys(old) ∪ keys(new)`:
added ∪ modified ∪ unchanged = keys(new), deleted = keys(old) \ keys(new),
and all four sets are pairwise disjoint. -/
theorem c5_diff_partition (old : List (String × Json))
    (nw : List (String × String)) (hnd : (akeys nw).Nodup) :
    (∀ p, (p ∈ addedSet old nw ∨ p ∈ modifiedSet old nw ∨
        p ∈ unchangedSet old nw) ↔ p ∈ akeys nw) ∧
    (∀ p, p ∈ deletedSet old nw ↔ p ∈ akeys old ∧ p ∉ akeys nw) ∧
    (∀ p, (p ∈ addedSet old nw ∨ p ∈ modifiedSet old nw ∨
        p ∈ deletedSet old nw ∨ p ∈ unchangedSet old nw) ↔
      (p ∈ akeys old ∨ p ∈ akeys nw)) ∧
    (∀ p, ¬(p ∈ addedSet old nw ∧ p ∈ modifiedSet old nw)) ∧
    (∀ p, ¬(p ∈ addedSet old nw ∧ p ∈ unchangedSet old nw)) ∧
    (∀ p, ¬(p ∈ addedSet old nw ∧ p ∈ deletedSet old nw)) ∧
    (∀ p, ¬(p ∈ modifiedSet old nw ∧ p ∈ unchangedSet old nw)) ∧
    (∀ p, ¬(p ∈ modifiedSet old nw ∧ p ∈ deletedSet old nw)) ∧
    (∀ p, ¬(p ∈ unchangedSet old nw ∧ p ∈ deletedSet old nw)) := by
  have hcover : ∀ p, (p ∈ addedSet old nw ∨ p ∈ modifiedSet old nw ∨
      p ∈ unchangedSet old nw) ↔ p ∈ akeys nw := by
    intro p
    constructor
    · exact mem_set_imp_keys_nw
    · intro hk
      rcases List.mem_map.mp hk with ⟨kv, hm, hp⟩
      cases hc : oldContains old p with
      | false =>
        exact Or.inl ((mem_addedSet old nw p).mpr ⟨hk, hc⟩)
      | true =>
        cases hv : pyNeVal (oldVal old p) kv.2 with
        | true =>
          exact Or.inr (Or.inl ((mem_modifiedSet old nw p).mpr
            ⟨kv, hm, hp, hc, hv⟩))
        | false =>
          exact Or.inr (Or.inr ((mem_unchangedSet old nw p).mpr
            ⟨kv, hm, hp, hc, hv⟩))
  have hdel : ∀ p, p ∈ deletedSet old nw ↔ p ∈ akeys old ∧ p ∉ akeys nw :=
    fun p => mem_deletedSet old nw p
  refine ⟨hcover, hdel, ?_, ?_, ?_, ?_, ?_, ?_, ?_⟩
  · intro p
    constructor
    · rintro (h | h | h | h)
      · exact Or.inr (mem_set_imp_keys_nw (Or.inl h))
      · exact Or.inr (mem_set_imp_keys_nw (Or.inr (Or.inl h)))
      · exact Or.inl ((hdel p).mp h).1
      · exact Or.inr (mem_set_imp_keys_nw (Or.inr (Or.inr h)))
    · rintro (h | h)
      · by_cases hn : p ∈ akeys nw
        · rcases (hcover p).mpr hn with ha | hm | hu
          · exact Or.inl ha
          · exact Or.inr (Or.inl hm)
          · exact Or.inr (Or.inr (Or.inr hu))
        · exact Or.inr (Or.inr (Or.inl ((hdel p).mpr ⟨h, hn⟩)))
      · rcases (hcover p).mpr h with ha | hm | hu
        · exact Or.inl ha
        · exact Or.inr (Or.inl hm)
        · exact Or.inr (Or.inr (Or.inr hu))
  · rintro p ⟨ha, hm⟩
    have h1 := ((mem_addedSet old nw p).mp ha).2
    rcases (mem_modifiedSet old nw p).mp hm with ⟨kv, _, _, hc, _⟩
    rw [h1] at hc
    cases hc
  · rintro p ⟨ha, hu⟩
    have h1 := ((mem_addedSet old nw p).mp ha).2
    rcases (mem_unchangedSet old nw p).mp hu with ⟨kv, _, _, hc, _⟩
    rw [h1] at hc
    cases hc
  · rintro p ⟨ha, hd⟩
    exact ((hdel p).mp hd).2 ((mem_addedSet old nw p).mp ha).1
  · rintro p ⟨hm, hu⟩
    rcases (mem_modifiedSet old nw p).mp hm with ⟨kv, hkm, hkp, _, hv⟩
    rcases (mem_unchangedSet old nw p).mp hu with ⟨kv', hkm', hkp', _, hv'⟩
    have e1 : alookup nw p = some kv.2 := by
      apply alookup_eq_of_mem_nodup hnd
      rw [← hkp]
      exact hkm
    have e2 : alookup nw p = some kv'.2 := by
      apply alookup_eq_of_mem_nodup hnd
      rw [← hkp']
      exact hkm'
    rw [e1] at e2
    simp only [Option.some.injEq] at e2
    rw [← e2, hv] at hv'
    cases hv'
  · rintro p ⟨hm, hd⟩
    exact ((hdel p).mp hd).2 (mem_set_imp_keys_nw (Or.inr (Or.inl hm)))
  · rintro p ⟨hu, hd⟩
    exact ((hdel p).mp hd).2 (mem_set_imp_keys_nw (Or.inr (Or.inr hu)))

/-- Witness for C5 at concrete snapshots old = {"a": "1"} and
new = {"b": "2"}. -/
theorem c5_diff_partition_witness :
    (akeys [("b", "2")]).Nodup ∧
    ((∀ p, (p ∈ addedSet [("a", Json.str "1")] [("b", "2")] ∨
        p ∈ modifiedSet [("a", Json.str "1")] [("b", "2")] ∨
        p ∈ unchangedSet [("a", Json.str "1")] [("b", "2")]) ↔
        p ∈ akeys [("b", "2")]) ∧
      (∀ p, p ∈ deletedSet [("a", Json.str "1")] [("b", "2")] ↔
        p ∈ akeys [("a", Json.str "1")] ∧ p ∉ akeys [("b", "2")]) ∧
      (∀ p, (p ∈ addedSet [("a", Json.str "1")] [("b", "2")] ∨
          p ∈ modifiedSet [("a", Json.str "1")] [("b", "2")] ∨
          p ∈ deletedSet [("a", Json.str "1")] [("b", "2")] ∨
          p ∈ unchangedSet [("a", Json.str "1")] [("b", "2")]) ↔
        (p ∈ akeys [("a", Json.str "1")] ∨ p ∈ akeys [("b", "2")])) ∧
      (∀ p, ¬(p ∈ addedSet [("a", Json.str "1")] [("b", "2")] ∧
        p ∈ modifiedSet [("a", Json.str "1")] [("b", "2")])) ∧
      (∀ p, ¬(p ∈ addedSet [("a", Json.str "1")] [("b", "2")] ∧
        p ∈ unchangedSet [("a", Json.str "1")] [("b", "2")])) ∧
      (∀ p, ¬(p ∈ addedSet [("a", Json.str "1")] [("b", "2")] ∧
        p ∈ deletedSet [("a", Json.str "1")] [("b", "2")])) ∧
      (∀ p, ¬(p ∈ modifiedSet [("a", Json.str "1")] [("b", "2")] ∧
        p ∈ unchangedSet [("a", Json.str "1")] [("b", "2")])) ∧
      (∀ p, ¬(p ∈ modifiedSet [("a", Json.str "1")] [("b", "2")] ∧
        p ∈ deletedSet [("a", Json.str "1")] [("b", "2")])) ∧
      (∀ p, ¬(p ∈ unchangedSet [("a", Json.str "1")] [("b", "2")] ∧
        p ∈ deletedSet [("a", Json.str "1")] [("b", "2")]))) :=
  ⟨by decide, c5_diff_partition [("a", Json.str "1")] [("b", "2")] (by decide)⟩

/-- Claim C7: a failed digest for one walk entry leaves the snapshot of the
other entries untouched, never aborts the cycle, omits the failing path
(when no other entry produces it), and every other readable, non-excluded
entry is still included. -/
theorem c7_digest_failure_isolated (dirs exts : List String)
    (fs1 fs2 : List Entry) (e : Entry) (d : Disk) (fx : SaveFx)
    (kvs : List (String × Json)) (he : e.hash = none)
    (hld : load_hashes d.hashFile = .obj kvs) :
    (∃ r d', checkFolder dirs exts (fs1 ++ e :: fs2) d fx = .ok (r, d')) ∧
    computeCurrent dirs exts (fs1 ++ e :: fs2) =
      computeCurrent dirs exts (fs1 ++ fs2) ∧
    ((∀ f ∈ fs1 ++ fs2, fullPath f ≠ fullPath e) →
      fullPath e ∉ akeys (computeCurrent dirs exts (fs1 ++ e :: fs2))) ∧
    (∀ f, f ∈ fs1 ++ fs2 → dirExcluded dirs f.dirSegs = false →
      extExcluded exts f.fname = false → hashOk f.hash = true →
      fullPath f ∈ akeys (computeCurrent dirs exts (fs1 ++ e :: fs2))) := by
  have heq : computeCurrent dirs exts (fs1 ++ e :: fs2) =
      computeCurrent dirs exts (fs1 ++ fs2) := by
    unfold computeCurrent
    rw [List.foldl_append, List.foldl_append, List.foldl_cons,
      curStep_none dirs exts _ e he]
  refine ⟨checkFolder_isOk dirs exts _ d fx kvs hld, heq, ?_, ?_⟩
  · intro huniq hmem
    rcases (mem_akeys_computeCurrent dirs exts _ _).mp hmem with
      ⟨f, hf, hp, _, _, hh⟩
    rcases List.mem_append.mp hf with hf1 | hf2
    · exact huniq f (List.mem_append.mpr (Or.inl hf1)) hp
    · rcases List.mem_cons.mp hf2 with hfe | hftl
      · rw [hfe, he] at hh
        simp [hashOk] at hh
      · exact huniq f (List.mem_append.mpr (Or.inr hftl)) hp
  · intro f hf hdx hex hho
    apply (mem_akeys_computeCurrent dirs exts _ _).mpr
    refine ⟨f, ?_, rfl, hdx, hex, hho⟩
    rcases List.mem_append.mp hf with h | h
    · exact List.mem_append.mpr (Or.inl h)
    · exact List.mem_append.mpr (Or.inr (List.mem_cons_of_mem _ h))

/-- Witness for C7: one readable file and one file whose digest fails, empty
prior state. -/
theorem c7_digest_failure_isolated_witness :
    (Entry.mk ["r"] "b" none).hash = none ∧
    load_hashes (Disk.mk .missing .missing).hashFile = .obj [] ∧
    ((∃ r d', checkFolder [] [] ([⟨["r"], "a", some "x"⟩] ++
        ⟨["r"], "b", none⟩ :: []) ⟨.missing, .missing⟩ ⟨true, .ok⟩ =
        .ok (r, d')) ∧
      computeCurrent [] [] ([⟨["r"], "a", some "x"⟩] ++
          ⟨["r"], "b", none⟩ :: []) =
        computeCurrent [] [] ([⟨["r"], "a", some "x"⟩] ++ []) ∧
      ((∀ f ∈ [Entry.mk ["r"] "a" (some "x")] ++ ([] : List Entry),
          fullPath f ≠ fullPath ⟨["r"], "b", none⟩) →
        fullPath (Entry.mk ["r"] "b" none) ∉
          akeys (computeCurrent [] [] ([⟨["r"], "a", some "x"⟩] ++
            ⟨["r"], "b", none⟩ :: []))) ∧
      (∀ f, f ∈ [Entry.mk ["r"] "a" (some "x")] ++ ([] : List Entry) →
        dirExcluded [] f.dirSegs = false → extExcluded [] f.fname = false →
        hashOk f.hash = true →
        fullPath f ∈ akeys (computeCurrent [] []
          ([⟨["r"], "a", some "x"⟩] ++ ⟨["r"], "b", none⟩ :: [])))) :=
  ⟨rfl, rfl, c7_digest_failure_isolated [] [] [⟨["r"], "a", some "x"⟩] []
    ⟨["r"], "b", none⟩ ⟨.missing, .missing⟩ ⟨true, .ok⟩ [] rfl rfl⟩

/-- Claim C1, counterexample: a pass over one unchanged file with a matching
persisted state detects no change and equal key sets, so `check_folder` does
not invoke the save operation (the result's save flag is false and the disk
is returned untouched) — the save is conditional, not unconditional. -/
theorem c1_counterexample :
    checkFolder EXCLUDE_DIRECTORIES EXCLUDE_EXTENSIONS
      [⟨["test_folder"], "a.txt", some "h1"⟩]
      ⟨.parsed (.obj [("test_folder/a.txt", Json.str "h1")]), .missing⟩
      ⟨true, .ok⟩ =
    .ok (⟨[("test_folder/a.txt", "h1")], 1, false, [], false⟩,
         ⟨.parsed (.obj [("test_folder/a.txt", Json.str "h1")]),
          .missing⟩) := rfl

/-- Claim C1, amended: `check_folder` persists the new snapshot exactly when
a change was detected or the key sets differ; whenever it skips the save,
the disk is left untouched and the persisted mapping already equals the
newly computed snapshot, so the skip never loses state. -/
theorem c1_conditional_save (dirs exts : List String) (fs : List Entry)
    (old : List (String × Json)) (bk : StateFile) (fx : SaveFx)
    (r : ScanResult) (d' : Disk)
    (h : checkFolder dirs exts fs ⟨.parsed (.obj old), bk⟩ fx = .ok (r, d'))
    (hskip : r.saveInvoked = false) :
    d' = ⟨.parsed (.obj old), bk⟩ ∧
    ∀ p, alookup old p = (alookup r.current p).map Json.str := by
  rw [checkFolder_obj] at h
  simp only [Except.ok.injEq, Prod.mk.injEq] at h
  obtain ⟨hr, hd'⟩ := h
  subst hr
  simp only at hskip
  have h12 := (Bool.or_eq_false_iff.mp hskip).1
  have h3 := (Bool.or_eq_false_iff.mp hskip).2
  have hch : (scanPure dirs exts old fs).changes = false :=
    (Bool.or_eq_false_iff.mp h12).1
  have hks : sameKeySet (akeys old)
      (akeys (scanPure dirs exts old fs).current) = true := by
    simpa using h3
  constructor
  · rw [← hd', if_neg]
    intro hc
    rw [hskip] at hc
    cases hc
  · intro p
    simpa using skip_no_op dirs exts fs old hch hks p

/-- Witness for C1 (amended) at the concrete no-change pass. -/
theorem c1_conditional_save_witness :
    checkFolder EXCLUDE_DIRECTORIES EXCLUDE_EXTENSIONS
      [⟨["test_folder"], "a.txt", some "h1"⟩]
      ⟨.parsed (.obj [("test_folder/a.txt", Json.str "h1")]), .missing⟩
      ⟨true, .ok⟩ =
      .ok (⟨[("test_folder/a.txt", "h1")], 1, false, [], false⟩,
           ⟨.parsed (.obj [("test_folder/a.txt", Json.str "h1")]),
            .missing⟩) ∧
    (ScanResult.mk [("test_folder/a.txt", "h1")] 1 false []
      false).saveInvoked = false ∧
    ((Disk.mk (.parsed (.obj [("test_folder/a.txt", Json.str "h1")]))
        .missing) =
      ⟨.parsed (.obj [("test_folder/a.txt", Json.str "h1")]), .missing⟩ ∧
      ∀ p, alookup [("test_folder/a.txt", Json.str "h1")] p =
        (alookup (ScanResult.mk [("test_folder/a.txt", "h1")] 1 false []
          false).current p).map Json.str) :=
  ⟨rfl, rfl,
   c1_conditional_save EXCLUDE_DIRECTORIES EXCLUDE_EXTENSIONS
     [⟨["test_folder"], "a.txt", some "h1"⟩]
     [("test_folder/a.txt", Json.str "h1")] .missing ⟨true, .ok⟩
     ⟨[("test_folder/a.txt", "h1")], 1, false, [], false⟩
     ⟨.parsed (.obj [("test_folder/a.txt", Json.str "h1")]), .missing⟩
     rfl rfl⟩

/-- Claim C10: when no change is detected and the key sets agree,
`check_folder` skips the save but the persisted mapping already equals the
new snapshot; hence, absent persistence errors, the conditional-save cycle
and the unconditional-save variant leave state files that a subsequent load
observes identically. -/
theorem c10_conditional_equiv_always (dirs exts : List String)
    (fs : List Entry) (old : List (String × Json)) (bk : StateFile)
    (bkOk : Bool) (r1 r2 : ScanResult) (d1 d2 : Disk)
    (h1 : checkFolder dirs exts fs ⟨.parsed (.obj old), bk⟩
      ⟨bkOk, .ok⟩ = .ok (r1, d1))
    (h2 : checkFolderAlwaysSave dirs exts fs ⟨.parsed (.obj old), bk⟩
      ⟨bkOk, .ok⟩ = .ok (r2, d2)) :
    (r1.saveInvoked = false →
      ∀ p, alookup old p = (alookup r1.current p).map Json.str) ∧
    r1.current = r2.current ∧
    (∀ p, jlookup (load_hashes d1.hashFile) p =
      jlookup (load_hashes d2.hashFile) p) := by
  rw [checkFolder_obj] at h1
  rw [checkFolderAlwaysSave_obj] at h2
  simp only [Except.ok.injEq, Prod.mk.injEq] at h1 h2
  obtain ⟨hr1, hd1⟩ := h1
  obtain ⟨hr2, hd2⟩ := h2
  subst hr1
  subst hr2
  have hsave2 : d2.hashFile =
      .parsed (encodeSnap (scanPure dirs exts old fs).current) := by
    rw [← hd2]
    simp [save_hashes]
  have hjl2 : ∀ p, jlookup (load_hashes d2.hashFile) p =
      (alookup (scanPure dirs exts old fs).current p).map Json.str := by
    intro p
    rw [hsave2]
    show jlookup (encodeSnap (scanPure dirs exts old fs).current) p = _
    unfold encodeSnap jlookup
    exact alookup_map_str _ p
  refine ⟨?_, rfl, ?_⟩
  · intro hskip
    simp only at hskip
    have h12 := (Bool.or_eq_false_iff.mp hskip).1
    have h3 := (Bool.or_eq_false_iff.mp hskip).2
    have hch : (scanPure dirs exts old fs).changes = false :=
      (Bool.or_eq_false_iff.mp h12).1
    have hks : sameKeySet (akeys old)
        (akeys (scanPure dirs exts old fs).current) = true := by
      simpa using h3
    intro p
    simpa using skip_no_op dirs exts fs old hch hks p
  · intro p
    rw [hjl2 p]
    cases hsn : ((scanPure dirs exts old fs).changes ||
        !(List.filter
          (fun k => !(alookup (scanPure dirs exts old fs).current k).isSome)
          (akeys old)).isEmpty ||
        !sameKeySet (akeys old)
          (akeys (scanPure dirs exts old fs).current)) with
    | true =>
      rw [← hd1, if_pos hsn]
      show jlookup (load_hashes (save_hashes _ _ _).hashFile) p = _
      simp only [save_hashes, load_hashes]
      show jlookup (encodeSnap (scanPure dirs exts old fs).current) p = _
      unfold encodeSnap jlookup
      exact alookup_map_str _ p
    | false =>
      rw [← hd1, if_neg (by rw [hsn]; exact fun hc => by cases hc)]
      show jlookup (.obj old) p = _
      have h12 := (Bool.or_eq_false_iff.mp hsn).1
      have h3 := (Bool.or_eq_false_iff.mp hsn).2
      have hch : (scanPure dirs exts old fs).changes = false :=
        (Bool.or_eq_false_iff.mp h12).1
      have hks : sameKeySet (akeys old)
          (akeys (scanPure dirs exts old fs).current) = true := by
        simpa using h3
      show alookup old p = _
      exact skip_no_op dirs exts fs old hch hks p

/-- Witness for C10 at the concrete no-change pass: the conditional cycle
skips the save, the unconditional variant rewrites an equal mapping, and a
subsequent load observes the same state either way. -/
theorem c10_conditional_equiv_always_witness :
    checkFolder EXCLUDE_DIRECTORIES EXCLUDE_EXTENSIONS
      [⟨["test_folder"], "a.txt", some "h1"⟩]
      ⟨.parsed (.obj [("test_folder/a.txt", Json.str "h1")]), .missing⟩
      ⟨true, .ok⟩ =
      .ok (⟨[("test_folder/a.txt", "h1")], 1, false, [], false⟩,
           ⟨.parsed (.obj [("test_folder/a.txt", Json.str "h1")]),
            .missing⟩) ∧
    checkFolderAlwaysSave EXCLUDE_DIRECTORIES EXCLUDE_EXTENSIONS
      [⟨["test_folder"], "a.txt", some "h1"⟩]
      ⟨.parsed (.obj [("test_folder/a.txt", Json.str "h1")]), .missing⟩
      ⟨true, .ok⟩ =
      .ok (⟨[("test_folder/a.txt", "h1")], 1, false, [], true⟩,
           ⟨.parsed (.obj [("test_folder/a.txt", Json.str "h1")]),
            .parsed (.obj [("test_folder/a.txt", Json.str "h1")])⟩) ∧
    (((ScanResult.mk [("test_folder/a.txt", "h1")] 1 false []
        false).saveInvoked = false →
      ∀ p, alookup [("test_folder/a.txt", Json.str "h1")] p =
        (alookup (ScanResult.mk [("test_folder/a.txt", "h1")] 1 false []
          false).current p).map Json.str) ∧
     (ScanResult.mk [("test_folder/a.txt", "h1")] 1 false []
        false).current =
       (ScanResult.mk [("test_folder/a.txt", "h1")] 1 false []
        true).current ∧
     (∀ p, jlookup (load_hashes
         (Disk.mk (.parsed (.obj [("test_folder/a.txt", Json.str "h1")]))
           .missing).hashFile) p =
       jlookup (load_hashes
         (Disk.mk (.parsed (.obj [("test_folder/a.txt", Json.str "h1")]))
           (.parsed (.obj [("test_folder/a.txt",
             Json.str "h1")]))).hashFile) p)) :=
  ⟨rfl, rfl,
   c10_conditional_equiv_always EXCLUDE_DIRECTORIES EXCLUDE_EXTENSIONS
     [⟨["test_folder"], "a.txt", some "h1"⟩]
     [("test_folder/a.txt", Json.str "h1")] .missing true
     ⟨[("test_folder/a.txt", "h1")], 1, false, [], false⟩
     ⟨[("test_folder/a.txt", "h1")], 1, false, [], true⟩
     ⟨.parsed (.obj [("test_folder/a.txt", Json.str "h1")]), .missing⟩
     ⟨.parsed (.obj [("test_folder/a.txt", Json.str "h1")]),
      .parsed (.obj [("test_folder/a.txt", Json.str "h1")])⟩
     rfl rfl⟩
